import Mathlib

/-!
Shallow embedding of the GBLoader cartridge-header decoder
(`src/src/lib.rs`, `DMG::new`) and proofs of the specification claims.

Modelling conventions:
* A ROM buffer is a `List Nat`, each element one byte (theorems that depend
  on byte range carry the hypothesis that every element is `< 256`).
* Rust `String` values produced by `str::from_utf8(..)?.to_string()` are
  represented by their UTF-8 byte content (a `List Nat`): a Rust `String`
  is exactly a UTF-8-valid byte buffer, so the empty string is `[]` and the
  byte length of the string is `List.length`.
* Rust indexing `rom_data[i]` and slicing `rom_data[lo..hi]` panic when out
  of bounds; this is modelled as the explicit `DecodeErr.indexFault` outcome,
  distinct from the `Utf8Error` that `DMG::new` returns as `Err`.
* `validUtf8` implements the UTF-8 well-formedness check performed by
  `std::str::from_utf8`: minimal-length encodings of scalar values
  `0x0..0x10FFFF` excluding the surrogate range `0xD800..0xDFFF`.
-/

set_option maxRecDepth 40000

namespace GBLoader

/-- Outcomes of running `DMG::new`: `utf8Error` models `Err(std::str::Utf8Error)`,
`indexFault` models an out-of-bounds panic of `rom_data[..]`. -/
inductive DecodeErr where
  | utf8Error : DecodeErr
  | indexFault : DecodeErr
  deriving Repr, DecidableEq

/-- Is `c` a UTF-8 continuation byte `0x80..0xBF`? -/
def contByte (c : Nat) : Bool :=
  decide (0x80 ≤ c ∧ c ≤ 0xBF)

/-- Allowed second byte of a 3-byte UTF-8 sequence with lead byte `b`
(excludes overlong forms for `0xE0` and surrogates for `0xED`). -/
def utf8Second3 (b c1 : Nat) : Bool :=
  if b == 0xE0 then decide (0xA0 ≤ c1 ∧ c1 ≤ 0xBF)
  else if b == 0xED then decide (0x80 ≤ c1 ∧ c1 ≤ 0x9F)
  else contByte c1

/-- Allowed second byte of a 4-byte UTF-8 sequence with lead byte `b`
(excludes overlong forms for `0xF0` and values above `0x10FFFF` for `0xF4`). -/
def utf8Second4 (b c1 : Nat) : Bool :=
  if b == 0xF0 then decide (0x90 ≤ c1 ∧ c1 ≤ 0xBF)
  else if b == 0xF4 then decide (0x80 ≤ c1 ∧ c1 ≤ 0x8F)
  else contByte c1

/-- UTF-8 validity of a byte list, as checked by Rust `std::str::from_utf8`. -/
def validUtf8 : List Nat → Bool
  | [] => true
  | b :: rest =>
    if b < 0x80 then validUtf8 rest
    else if b < 0xC2 then false
    else if b < 0xE0 then
      match rest with
      | c1 :: rest2 => contByte c1 && validUtf8 rest2
      | [] => false
    else if b < 0xF0 then
      match rest with
      | c1 :: c2 :: rest2 => utf8Second3 b c1 && contByte c2 && validUtf8 rest2
      | _ => false
    else if b < 0xF5 then
      match rest with
      | c1 :: c2 :: c3 :: rest2 =>
        utf8Second4 b c1 && contByte c2 && contByte c3 && validUtf8 rest2
      | _ => false
    else false

/-- Rust `rom_data[i]` for a byte: panics (`indexFault`) when out of bounds. -/
def readByte (rom : List Nat) (i : Nat) : Except DecodeErr Nat :=
  match rom[i]? with
  | some b => .ok b
  | none => .error .indexFault

/-- Rust `&rom_data[lo..hi]`: panics (`indexFault`) when the range is out of
bounds; all call sites have `lo ≤ hi` as fixed literals. -/
def readSlice (rom : List Nat) (lo hi : Nat) : Except DecodeErr (List Nat) :=
  if hi ≤ rom.length then .ok ((rom.drop lo).take (hi - lo)) else .error .indexFault

/-- Rust `std::str::from_utf8(bytes)?.to_string()`: the resulting `String`
is the same byte content, validated. -/
def decodeUtf8 (bytes : List Nat) : Except DecodeErr (List Nat) :=
  if validUtf8 bytes then .ok bytes else .error .utf8Error

/-- The `DMG` struct of `src/src/lib.rs`; `String` fields carried as their
UTF-8 byte content. -/
structure DMG where
  entry_point : Nat
  nintendo_logo : List Nat
  title : List Nat
  new_license_code : List Nat
  sgb_flag : Nat
  cartridge_type : Nat
  rom_size : Nat
  ram_size : Nat
  destination_code : Nat
  license_code : Nat
  mask_rom_version_number : Nat
  header_checksum : Nat
  global_checksum : Nat
  deriving Repr, DecidableEq

/-- `DMG::new` of `src/src/lib.rs`, line for line: the two leading byte reads,
the `title` decode, the conditional `new_license_code` decode, then the struct
literal whose fields are evaluated in source order. -/
def DMG.new (rom_data : List Nat) : Except DecodeErr DMG := do
  let license_code ← readByte rom_data 0x14B
  let cartridge_type ← readByte rom_data 0x147
  let title ← decodeUtf8 (← readSlice rom_data 0x134 0x144)
  let new_license_code ←
    if license_code == 0x33 then
      decodeUtf8 (← readSlice rom_data 0x144 0x146)
    else
      pure []
  let nintendo_logo ← readSlice rom_data 0x104 0x133
  let sgb_flag ← readByte rom_data 0x146
  let cartridge_type_field ← readByte rom_data 0x147
  let rom_size ← readByte rom_data 0x148
  let ram_size ←
    if cartridge_type != 0x05 then readByte rom_data 0x149 else pure 0
  let destination_code ← readByte rom_data 0x14A
  let license_code_field ← readByte rom_data 0x14B
  let mask_rom_version_number ← readByte rom_data 0x14C
  let header_checksum ← readByte rom_data 0x14D
  let gc_hi ← readByte rom_data 0x14E
  let gc_lo ← readByte rom_data 0x14F
  pure {
    entry_point := 0x100
    nintendo_logo := nintendo_logo
    title := title
    new_license_code := new_license_code
    sgb_flag := sgb_flag
    cartridge_type := cartridge_type_field
    rom_size := rom_size
    ram_size := ram_size
    destination_code := destination_code
    license_code := license_code_field
    mask_rom_version_number := mask_rom_version_number
    header_checksum := header_checksum
    global_checksum := (gc_hi <<< 8) ||| gc_lo
  }

/-- The byte of `rom` at offset `i` (offsets used below are all in bounds). -/
def byteAt (rom : List Nat) (i : Nat) : Nat := rom.getD i 0

/-- The byte range `[lo, hi)` of `rom`. -/
def sliceOf (rom : List Nat) (lo hi : Nat) : List Nat :=
  (rom.drop lo).take (hi - lo)

/-- The header `DMG::new` builds on success, with `new_license_code = nlc`. -/
def mkHeader (rom : List Nat) (nlc : List Nat) : DMG where
  entry_point := 0x100
  nintendo_logo := sliceOf rom 0x104 0x133
  title := sliceOf rom 0x134 0x144
  new_license_code := nlc
  sgb_flag := byteAt rom 0x146
  cartridge_type := byteAt rom 0x147
  rom_size := byteAt rom 0x148
  ram_size := if byteAt rom 0x147 ≠ 0x05 then byteAt rom 0x149 else 0
  destination_code := byteAt rom 0x14A
  license_code := byteAt rom 0x14B
  mask_rom_version_number := byteAt rom 0x14C
  header_checksum := byteAt rom 0x14D
  global_checksum := (byteAt rom 0x14E <<< 8) ||| byteAt rom 0x14F

theorem readByte_ok (rom : List Nat) (i : Nat) (h : i < rom.length) :
    readByte rom i = .ok (byteAt rom i) := by
  simp [readByte, byteAt, List.getElem?_eq_getElem h, List.getD_eq_getElem _ _ h]

theorem readSlice_ok (rom : List Nat) (lo hi : Nat) (h : hi ≤ rom.length) :
    readSlice rom lo hi = .ok (sliceOf rom lo hi) := by
  simp [readSlice, sliceOf, h]

/-- Normal form of `DMG.new` on buffers long enough for every read. -/
theorem new_eq (rom : List Nat) (h : 0x150 ≤ rom.length) :
    DMG.new rom =
      if validUtf8 (sliceOf rom 0x134 0x144) then
        if byteAt rom 0x14B = 0x33 then
          if validUtf8 (sliceOf rom 0x144 0x146) then
            .ok (mkHeader rom (sliceOf rom 0x144 0x146))
          else
            .error .utf8Error
        else
          .ok (mkHeader rom [])
      else
        .error .utf8Error := by
  simp only [DMG.new,
    readByte_ok rom 0x14B (by omega), readByte_ok rom 0x147 (by omega),
    readByte_ok rom 0x146 (by omega), readByte_ok rom 0x148 (by omega),
    readByte_ok rom 0x149 (by omega), readByte_ok rom 0x14A (by omega),
    readByte_ok rom 0x14C (by omega), readByte_ok rom 0x14D (by omega),
    readByte_ok rom 0x14E (by omega), readByte_ok rom 0x14F (by omega),
    readSlice_ok rom 0x134 0x144 (by omega),
    readSlice_ok rom 0x144 0x146 (by omega),
    readSlice_ok rom 0x104 0x133 (by omega),
    decodeUtf8, bind, Except.bind, pure, Except.pure, beq_iff_eq, bne_iff_ne]
  by_cases hT : validUtf8 (sliceOf rom 0x134 0x144)
  · by_cases hL : byteAt rom 0x14B = 0x33
    · by_cases hV : validUtf8 (sliceOf rom 0x144 0x146)
      · by_cases hC : byteAt rom 0x147 = 0x05 <;>
          simp [hT, hL, hV, hC, mkHeader]
      · simp [hT, hL, hV]
    · by_cases hC : byteAt rom 0x147 = 0x05 <;>
        simp [hT, hL, hC, mkHeader]
  · simp [hT]

/-- The 47 logo bytes of the repository's test ROM (`test_roms/header_only_test.gb`,
as asserted by the `get_nintendo_logo` test). -/
def logoBytes : List Nat :=
  [0xCE, 0xED, 0x66, 0x66, 0xCC, 0x0D, 0x00, 0x0B, 0x03, 0x73, 0x00, 0x83, 0x00, 0x0C,
   0x00, 0x0D, 0x00, 0x08, 0x11, 0x1F, 0x88, 0x89, 0x00, 0x0E, 0xDC, 0xCC, 0x6E, 0xE6,
   0xDD, 0xDD, 0xD9, 0x99, 0xBB, 0xBB, 0x67, 0x63, 0x6E, 0x0E, 0xEC, 0xCC, 0xDD, 0xDC,
   0x99, 0x9F, 0xBB, 0xB9, 0x33]

/-- A 0x150-byte buffer reproducing the header of the repository's test ROM:
title bytes spell GBLOADERTEST1234, bytes 0x144-0x145 spell 01, byte 0x14B is
0x33, and the remaining header bytes match the assertions of the test suite. -/
def testRom : List Nat :=
  List.replicate 0x104 0 ++ logoBytes ++ [0x00] ++
  [0x47, 0x42, 0x4C, 0x4F, 0x41, 0x44, 0x45, 0x52,
   0x54, 0x45, 0x53, 0x54, 0x31, 0x32, 0x33, 0x34] ++
  [0x30, 0x31] ++
  [0x03, 0x01, 0x02, 0x03, 0x01, 0x33, 0x00, 0xFF, 0x00, 0x00]

/-- `testRom` with an extra trailing byte and a different byte at offset 0,
agreeing with `testRom` on the whole header range 0x100-0x14F. -/
def testRom2 : List Nat := testRom.set 0 0x09 ++ [0x07]

/-- An all-zero 0x150-byte buffer: the title bytes are valid UTF-8, the
license byte is not 0x33, the cartridge type is not 0x05, and byte 0x149 is 0. -/
def zeroRom : List Nat := List.replicate 0x150 0

/-- The header `DMG.new` produces on `testRom`. -/
def testHeader : DMG := mkHeader testRom [0x30, 0x31]

theorem sliceOf_length (rom : List Nat) (lo hi : Nat) (h : hi ≤ rom.length) :
    (sliceOf rom lo hi).length = hi - lo := by
  simp only [sliceOf, List.length_take, List.length_drop]
  omega

theorem sliceOf_getD (rom : List Nat) (lo hi k : Nat) (hk : k < hi - lo)
    (h : hi ≤ rom.length) :
    (sliceOf rom lo hi).getD k 0 = byteAt rom (lo + k) := by
  have hlen : (sliceOf rom lo hi).length = hi - lo := sliceOf_length rom lo hi h
  have hk2 : k < (sliceOf rom lo hi).length := by omega
  have hk3 : lo + k < rom.length := by omega
  rw [byteAt, List.getD_eq_getElem _ _ hk2, List.getD_eq_getElem _ _ hk3]
  simp [sliceOf]

theorem sliceOf_congr (rom1 rom2 : List Nat) (lo hi : Nat)
    (h1 : hi ≤ rom1.length) (h2 : hi ≤ rom2.length)
    (hag : ∀ i, lo ≤ i → i < hi → byteAt rom1 i = byteAt rom2 i) :
    sliceOf rom1 lo hi = sliceOf rom2 lo hi := by
  apply List.ext_getElem
  · rw [sliceOf_length rom1 lo hi h1, sliceOf_length rom2 lo hi h2]
  · intro k hk1 hk2
    have hk : k < hi - lo := by rwa [sliceOf_length rom1 lo hi h1] at hk1
    rw [←List.getD_eq_getElem _ 0 hk1, ←List.getD_eq_getElem _ 0 hk2,
      sliceOf_getD rom1 lo hi k hk h1, sliceOf_getD rom2 lo hi k hk h2]
    exact hag (lo + k) (by omega) (by omega)

/-- Success characterization of `DMG.new` on buffers of length at least 0x150. -/
theorem new_ok_iff (rom : List Nat) (h : 0x150 ≤ rom.length) (hdr : DMG) :
    DMG.new rom = .ok hdr ↔
      (validUtf8 (sliceOf rom 0x134 0x144) = true ∧
        ((byteAt rom 0x14B = 0x33 ∧ validUtf8 (sliceOf rom 0x144 0x146) = true ∧
            hdr = mkHeader rom (sliceOf rom 0x144 0x146)) ∨
          (byteAt rom 0x14B ≠ 0x33 ∧ hdr = mkHeader rom []))) := by
  rw [new_eq rom h]
  split_ifs with hT hL hV
  · simp only [Except.ok.injEq]
    constructor
    · intro he
      exact ⟨hT, Or.inl ⟨hL, hV, he.symm⟩⟩
    · rintro ⟨-, hcase⟩
      rcases hcase with ⟨-, -, rfl⟩ | ⟨hne, -⟩
      · rfl
      · exact absurd hL hne
  · constructor
    · intro he
      exact he.elim
    · rintro ⟨-, hcase⟩
      rcases hcase with ⟨-, hv, -⟩ | ⟨hne, -⟩
      · exact absurd hv hV
      · exact absurd hL hne
  · simp only [Except.ok.injEq]
    constructor
    · intro he
      exact ⟨hT, Or.inr ⟨hL, he.symm⟩⟩
    · rintro ⟨-, hcase⟩
      rcases hcase with ⟨hl, -, -⟩ | ⟨-, rfl⟩
      · exact absurd hl hL
      · rfl
  · constructor
    · intro he
      exact he.elim
    · rintro ⟨hv, -⟩
      exact absurd hv hT

/-- Claim C1: for every buffer of length at least 0x150, `DMG::new` returns an
error if and only if the 16 title bytes at 0x134-0x143 are not valid UTF-8, or
the byte at 0x14B equals 0x33 and the 2 bytes at 0x144-0x145 are not valid
UTF-8; every error is the encoding-error kind (`utf8Error`, never a fault), so
when the byte at 0x14B is not 0x33 the bytes at 0x144-0x145 cannot cause
failure; no partial header exists on error since the result is all-or-nothing. -/
theorem claim1_invalid_encoding_contract (rom : List Nat) (h : 0x150 ≤ rom.length) :
    ((∃ e, DMG.new rom = .error e) ↔
      (validUtf8 (sliceOf rom 0x134 0x144) = false ∨
        (byteAt rom 0x14B = 0x33 ∧ validUtf8 (sliceOf rom 0x144 0x146) = false))) ∧
    (∀ e, DMG.new rom = .error e → e = DecodeErr.utf8Error) := by
  rw [new_eq rom h]
  split_ifs with hT hL hV
  · refine ⟨?_, ?_⟩
    · constructor
      · rintro ⟨e, he⟩
        exact he.elim
      · rintro (hf | ⟨-, hf⟩)
        · rw [hT] at hf
          exact Bool.noConfusion hf
        · rw [hV] at hf
          exact Bool.noConfusion hf
    · intro e he
      exact he.elim
  · refine ⟨?_, ?_⟩
    · constructor
      · intro _
        exact Or.inr ⟨hL, Bool.eq_false_iff.mpr hV⟩
      · intro _
        exact ⟨DecodeErr.utf8Error, rfl⟩
    · intro e he
      injection he with he2
      exact he2.symm
  · refine ⟨?_, ?_⟩
    · constructor
      · rintro ⟨e, he⟩
        exact he.elim
      · rintro (hf | ⟨hl, -⟩)
        · rw [hT] at hf
          exact Bool.noConfusion hf
        · exact absurd hl hL
    · intro e he
      exact he.elim
  · refine ⟨?_, ?_⟩
    · constructor
      · intro _
        exact Or.inl (Bool.eq_false_iff.mpr hT)
      · intro _
        exact ⟨DecodeErr.utf8Error, rfl⟩
    · intro e he
      injection he with he2
      exact he2.symm

/-- Witness for C1 at the test ROM buffer. -/
theorem claim1_invalid_encoding_contract_witness :
    ((∃ e, DMG.new testRom = .error e) ↔
      (validUtf8 (sliceOf testRom 0x134 0x144) = false ∨
        (byteAt testRom 0x14B = 0x33 ∧ validUtf8 (sliceOf testRom 0x144 0x146) = false))) ∧
    (∀ e, DMG.new testRom = .error e → e = DecodeErr.utf8Error) :=
  claim1_invalid_encoding_contract testRom (by decide)

/-- Claim C2: on every buffer of length at least 0x150 on which decode
succeeds, `ram_size` is 0 whenever the byte at 0x147 equals 0x05 (regardless
of the byte at 0x149), and otherwise equals the raw byte at 0x149. -/
theorem claim2_ram_size_derivation (rom : List Nat) (hdr : DMG)
    (h : 0x150 ≤ rom.length) (hok : DMG.new rom = .ok hdr) :
    (byteAt rom 0x147 = 0x05 → hdr.ram_size = 0) ∧
    (byteAt rom 0x147 ≠ 0x05 → hdr.ram_size = byteAt rom 0x149) := by
  rcases (new_ok_iff rom h hdr).mp hok with ⟨-, ⟨-, -, rfl⟩ | ⟨-, rfl⟩⟩ <;>
    refine ⟨fun hc => by simp [mkHeader, hc], fun hc => by simp [mkHeader, hc]⟩

/-- Witness for C2 at the test ROM buffer (cartridge type 0x01, ram byte 0x03). -/
theorem claim2_ram_size_derivation_witness :
    (byteAt testRom 0x147 = 0x05 → testHeader.ram_size = 0) ∧
    (byteAt testRom 0x147 ≠ 0x05 → testHeader.ram_size = byteAt testRom 0x149) :=
  claim2_ram_size_derivation testRom testHeader (by decide) (by rfl)

/-- Claim C3: on every buffer of length at least 0x150 on which decode
succeeds, `new_license_code` is the empty string exactly when the byte at
0x14B is not 0x33, and when that byte is 0x33 it equals the UTF-8 decoding of
the two bytes at 0x144-0x145, hence has byte length 2 and is non-empty. -/
theorem claim3_new_license_code_contract (rom : List Nat) (hdr : DMG)
    (h : 0x150 ≤ rom.length) (hok : DMG.new rom = .ok hdr) :
    (hdr.new_license_code = [] ↔ byteAt rom 0x14B ≠ 0x33) ∧
    (byteAt rom 0x14B = 0x33 →
      hdr.new_license_code = sliceOf rom 0x144 0x146 ∧
      hdr.new_license_code.length = 2) := by
  rcases (new_ok_iff rom h hdr).mp hok with ⟨-, ⟨hl, -, rfl⟩ | ⟨hl, rfl⟩⟩
  · have hlen : (sliceOf rom 0x144 0x146).length = 2 :=
      sliceOf_length rom 0x144 0x146 (by omega)
    refine ⟨?_, fun _ => ⟨rfl, hlen⟩⟩
    constructor
    · intro hempty
      rw [show (mkHeader rom (sliceOf rom 0x144 0x146)).new_license_code =
        sliceOf rom 0x144 0x146 from rfl] at hempty
      rw [hempty] at hlen
      exact absurd hlen (by decide)
    · intro hne
      exact absurd hl hne
  · exact ⟨⟨fun _ => hl, fun _ => rfl⟩, fun hc => absurd hc hl⟩

/-- Witness for C3 at the test ROM buffer (license byte 0x33, bytes 01). -/
theorem claim3_new_license_code_contract_witness :
    (testHeader.new_license_code = [] ↔ byteAt testRom 0x14B ≠ 0x33) ∧
    (byteAt testRom 0x14B = 0x33 →
      testHeader.new_license_code = sliceOf testRom 0x144 0x146 ∧
      testHeader.new_license_code.length = 2) :=
  claim3_new_license_code_contract testRom testHeader (by decide) (by rfl)

/-- Claim C4 counterexample: on the all-zero 0x150-byte buffer decode succeeds,
the resulting header has `ram_size = 0`, yet its `cartridge_type` is 0x00, not
0x05 — so `ram_size = 0 ↔ cartridge_type = 0x05` fails for a decoded header. -/
theorem claim4_ram_size_iff_counterexample :
    (DMG.new zeroRom).toOption.map
        (fun hdr => decide (hdr.ram_size = 0 ↔ hdr.cartridge_type = 0x05)) =
      some false := by
  rfl

theorem byteAt_lt_of_bytes (rom : List Nat) (i : Nat) (h : i < rom.length)
    (hb : ∀ b ∈ rom, b < 256) : byteAt rom i < 256 := by
  rw [byteAt, List.getD_eq_getElem _ _ h]
  exact hb _ (List.getElem_mem h)

/-- Claim C4 (amended): on every buffer of length at least 0x150 on which
decode succeeds, `ram_size = 0` whenever `cartridge_type = 0x05`, and in
general `ram_size = 0` if and only if `cartridge_type = 0x05` or the byte at
0x149 is itself 0 (the decoder does not prevent a zero ram byte on other
cartridge types). -/
theorem claim4_ram_size_iff_amended (rom : List Nat) (hdr : DMG)
    (h : 0x150 ≤ rom.length) (hok : DMG.new rom = .ok hdr) :
    (hdr.cartridge_type = 0x05 → hdr.ram_size = 0) ∧
    (hdr.ram_size = 0 ↔ (hdr.cartridge_type = 0x05 ∨ byteAt rom 0x149 = 0)) := by
  rcases (new_ok_iff rom h hdr).mp hok with ⟨-, ⟨-, -, rfl⟩ | ⟨-, rfl⟩⟩ <;>
  · by_cases hc : byteAt rom 0x147 = 0x05
    · refine ⟨fun _ => by simp [mkHeader, hc], ?_⟩
      simp [mkHeader, hc]
    · refine ⟨fun hcf => absurd (by simpa [mkHeader] using hcf) hc, ?_⟩
      simp only [mkHeader, if_pos hc, if_neg hc]
      constructor
      · intro hz
        exact Or.inr (by simpa [hc] using hz)
      · rintro (hfive | hz)
        · exact absurd hfive hc
        · simpa [hc] using hz

/-- Witness for the amended C4 at the test ROM buffer. -/
theorem claim4_ram_size_iff_amended_witness :
    (testHeader.cartridge_type = 0x05 → testHeader.ram_size = 0) ∧
    (testHeader.ram_size = 0 ↔
      (testHeader.cartridge_type = 0x05 ∨ byteAt testRom 0x149 = 0)) :=
  claim4_ram_size_iff_amended testRom testHeader (by decide) (by rfl)

/-- Claim C5: on every byte buffer of length at least 0x150 on which decode
succeeds, `global_checksum` is the exact big-endian 16-bit assembly
`byte[0x14E] * 256 + byte[0x14F]`, in particular below 0x10000. -/
theorem claim5_global_checksum_assembly (rom : List Nat) (hdr : DMG)
    (h : 0x150 ≤ rom.length) (hb : ∀ b ∈ rom, b < 256)
    (hok : DMG.new rom = .ok hdr) :
    hdr.global_checksum = byteAt rom 0x14E * 256 + byteAt rom 0x14F ∧
    hdr.global_checksum < 65536 := by
  have h14E := byteAt_lt_of_bytes rom 0x14E (by omega) hb
  have h14F := byteAt_lt_of_bytes rom 0x14F (by omega) hb
  have hlt : byteAt rom 0x14F < 2 ^ 8 := by
    simpa using h14F
  have key : ∀ nlc, (mkHeader rom nlc).global_checksum =
      byteAt rom 0x14E * 256 + byteAt rom 0x14F := by
    intro nlc
    show (byteAt rom 0x14E <<< 8) ||| byteAt rom 0x14F = _
    rw [Nat.shiftLeft_eq, Nat.mul_comm, ←Nat.mul_add_lt_is_or hlt]
  have hbound : byteAt rom 0x14E * 256 + byteAt rom 0x14F < 65536 := by omega
  rcases (new_ok_iff rom h hdr).mp hok with ⟨-, ⟨-, -, rfl⟩ | ⟨-, rfl⟩⟩ <;>
    exact ⟨key _, by rw [key]; exact hbound⟩

/-- Witness for C5 at the test ROM buffer. -/
theorem claim5_global_checksum_assembly_witness :
    testHeader.global_checksum = byteAt testRom 0x14E * 256 + byteAt testRom 0x14F ∧
    testHeader.global_checksum < 65536 :=
  claim5_global_checksum_assembly testRom testHeader (by decide) (by decide) (by rfl)

/-- Claim C6: on every buffer of length at least 0x150 on which decode
succeeds, `nintendo_logo` is exactly the 47 bytes at offsets 0x104 through
0x132 inclusive, byte-for-byte, untransformed and unvalidated. -/
theorem claim6_nintendo_logo_verbatim (rom : List Nat) (hdr : DMG)
    (h : 0x150 ≤ rom.length) (hok : DMG.new rom = .ok hdr) :
    hdr.nintendo_logo = sliceOf rom 0x104 0x133 ∧
    hdr.nintendo_logo.length = 47 ∧
    ∀ k, k < 47 → hdr.nintendo_logo.getD k 0 = byteAt rom (0x104 + k) := by
  rcases (new_ok_iff rom h hdr).mp hok with ⟨-, ⟨-, -, rfl⟩ | ⟨-, rfl⟩⟩ <;>
  · refine ⟨rfl, ?_, ?_⟩
    · have := sliceOf_length rom 0x104 0x133 (by omega)
      show (sliceOf rom 0x104 0x133).length = 47
      omega
    · intro k hk
      exact sliceOf_getD rom 0x104 0x133 k (by omega) (by omega)

/-- Witness for C6 at the test ROM buffer. -/
theorem claim6_nintendo_logo_verbatim_witness :
    testHeader.nintendo_logo = sliceOf testRom 0x104 0x133 ∧
    testHeader.nintendo_logo.length = 47 ∧
    ∀ k, k < 47 → testHeader.nintendo_logo.getD k 0 = byteAt testRom (0x104 + k) :=
  claim6_nintendo_logo_verbatim testRom testHeader (by decide) (by rfl)

/-- Claim C7: every buffer of length at least 0x150 whose title bytes at
0x134-0x143 are valid UTF-8 (and whose extended-license bytes are valid when
the byte at 0x14B is 0x33) decodes successfully, and the resulting `title` is
the UTF-8 decoding of exactly those 16 bytes. -/
theorem claim7_title_decoding (rom : List Nat) (h : 0x150 ≤ rom.length)
    (hT : validUtf8 (sliceOf rom 0x134 0x144) = true)
    (hL : byteAt rom 0x14B = 0x33 → validUtf8 (sliceOf rom 0x144 0x146) = true) :
    ∃ hdr, DMG.new rom = .ok hdr ∧ hdr.title = sliceOf rom 0x134 0x144 := by
  by_cases hl : byteAt rom 0x14B = 0x33
  · exact ⟨mkHeader rom (sliceOf rom 0x144 0x146),
      (new_ok_iff rom h _).mpr ⟨hT, Or.inl ⟨hl, hL hl, rfl⟩⟩, rfl⟩
  · exact ⟨mkHeader rom [], (new_ok_iff rom h _).mpr ⟨hT, Or.inr ⟨hl, rfl⟩⟩, rfl⟩

/-- Witness for C7 at the test ROM buffer. -/
theorem claim7_title_decoding_witness :
    ∃ hdr, DMG.new testRom = .ok hdr ∧ hdr.title = sliceOf testRom 0x134 0x144 :=
  claim7_title_decoding testRom (by decide) (by decide) (by decide)

/-- Claim C8: on every buffer of length at least 0x150, `DMG::new` never
reaches an out-of-bounds read (the `indexFault` branch of the embedding is
unreachable): it is total, returning a header or the encoding error. -/
theorem claim8_no_out_of_bounds_reads (rom : List Nat) (h : 0x150 ≤ rom.length) :
    DMG.new rom ≠ .error .indexFault ∧
    ((∃ hdr, DMG.new rom = .ok hdr) ∨ DMG.new rom = .error .utf8Error) := by
  rw [new_eq rom h]
  split_ifs
  · exact ⟨by simp, Or.inl ⟨_, rfl⟩⟩
  · exact ⟨by simp, Or.inr rfl⟩
  · exact ⟨by simp, Or.inl ⟨_, rfl⟩⟩
  · exact ⟨by simp, Or.inr rfl⟩

/-- Witness for C8 at the test ROM buffer. -/
theorem claim8_no_out_of_bounds_reads_witness :
    DMG.new testRom ≠ .error .indexFault ∧
    ((∃ hdr, DMG.new testRom = .ok hdr) ∨ DMG.new testRom = .error .utf8Error) :=
  claim8_no_out_of_bounds_reads testRom (by decide)

/-- Claim C9: decode is a pure function of the header bytes 0x100-0x14F: two
buffers of length at least 0x150 agreeing on that byte range decode to
identical results, and every successfully decoded header has the constant
`entry_point = 0x100`. -/
theorem claim9_header_determinism (rom1 rom2 : List Nat)
    (h1 : 0x150 ≤ rom1.length) (h2 : 0x150 ≤ rom2.length)
    (hag : ∀ i, 0x100 ≤ i → i < 0x150 → byteAt rom1 i = byteAt rom2 i) :
    DMG.new rom1 = DMG.new rom2 ∧
    (∀ hdr, DMG.new rom1 = .ok hdr → hdr.entry_point = 0x100) := by
  have e146 := hag 0x146 (by omega) (by omega)
  have e147 := hag 0x147 (by omega) (by omega)
  have e148 := hag 0x148 (by omega) (by omega)
  have e149 := hag 0x149 (by omega) (by omega)
  have e14A := hag 0x14A (by omega) (by omega)
  have e14B := hag 0x14B (by omega) (by omega)
  have e14C := hag 0x14C (by omega) (by omega)
  have e14D := hag 0x14D (by omega) (by omega)
  have e14E := hag 0x14E (by omega) (by omega)
  have e14F := hag 0x14F (by omega) (by omega)
  have hsT : sliceOf rom1 0x134 0x144 = sliceOf rom2 0x134 0x144 :=
    sliceOf_congr rom1 rom2 0x134 0x144 (by omega) (by omega)
      (fun i hi1 hi2 => hag i (by omega) (by omega))
  have hsL : sliceOf rom1 0x144 0x146 = sliceOf rom2 0x144 0x146 :=
    sliceOf_congr rom1 rom2 0x144 0x146 (by omega) (by omega)
      (fun i hi1 hi2 => hag i (by omega) (by omega))
  have hsG : sliceOf rom1 0x104 0x133 = sliceOf rom2 0x104 0x133 :=
    sliceOf_congr rom1 rom2 0x104 0x133 (by omega) (by omega)
      (fun i hi1 hi2 => hag i (by omega) (by omega))
  have hmk : ∀ nlc, mkHeader rom1 nlc = mkHeader rom2 nlc := by
    intro nlc
    simp only [mkHeader, hsT, hsL, hsG, e146, e147, e148, e149, e14A, e14B,
      e14C, e14D, e14E, e14F]
  refine ⟨?_, ?_⟩
  · simp only [new_eq rom1 h1, new_eq rom2 h2, hsT, hsL, e14B, hmk]
  · intro hdr hok
    rcases (new_ok_iff rom1 h1 hdr).mp hok with ⟨-, ⟨-, -, rfl⟩ | ⟨-, rfl⟩⟩ <;> rfl

/-- Witness for C9: the test ROM buffer against a variant that differs at
offset 0 and has an extra trailing byte but agrees on the header range. -/
theorem claim9_header_determinism_witness :
    DMG.new testRom = DMG.new testRom2 ∧
    (∀ hdr, DMG.new testRom = .ok hdr → hdr.entry_point = 0x100) :=
  claim9_header_determinism testRom testRom2 (by decide) (by decide) (by decide)

/-- Claim C10: on every buffer of length at least 0x150 on which decode
succeeds, the title string has byte length exactly 16 and is the untrimmed
byte range 0x134-0x143 (trailing 0x00 padding preserved, never shortened). -/
theorem claim10_title_sixteen_bytes (rom : List Nat) (hdr : DMG)
    (h : 0x150 ≤ rom.length) (hok : DMG.new rom = .ok hdr) :
    hdr.title.length = 16 ∧ hdr.title = sliceOf rom 0x134 0x144 := by
  rcases (new_ok_iff rom h hdr).mp hok with ⟨-, ⟨-, -, rfl⟩ | ⟨-, rfl⟩⟩ <;>
  · refine ⟨?_, rfl⟩
    have := sliceOf_length rom 0x134 0x144 (by omega)
    show (sliceOf rom 0x134 0x144).length = 16
    omega

/-- Witness for C10 at the test ROM buffer. -/
theorem claim10_title_sixteen_bytes_witness :
    testHeader.title.length = 16 ∧ testHeader.title = sliceOf testRom 0x134 0x144 :=
  claim10_title_sixteen_bytes testRom testHeader (by decide) (by rfl)

end GBLoader
